import Mathlib

/-!
Verification of `chromeos-filesystem-nextcloud` (`src/scripts/webdav_fs.js`).

JavaScript strings are shallow-embedded as `List Char` (`JStr`), JavaScript
objects used as dictionaries as association lists in insertion order, and the
handlers of the `WebDAVFS` class as pure functions that return the sequence of
`WebDAV.Client` adapter calls they issue together with their state updates.
Fallible handlers (those that can throw) return `Except JsError`.

Two collaborating pieces are not part of the source tree and are modelled from
the specification, each marked `Modelled from the spec:` in its doc comment:
the `MetadataCache` class (spec §4.2) and the remote server's chunked-upload
assembly semantics (spec §4.4/§6).
-/

set_option maxHeartbeats 1000000
set_option maxRecDepth 100000

/-- JavaScript strings, modelled as lists of UTF-16 code points. -/
abbrev JStr := List Char

/-- Embedding of a Lean string literal into the JavaScript string model. -/
def js (s : String) : JStr := s.data

/-- Reading `obj[k]` from a JavaScript object modelled as an association list. -/
def objGet (k : JStr) : List (JStr × β) → Option β
  | [] => none
  | (k', v) :: t => if k' = k then some v else objGet k t

/-- The assignment `obj[k] = v`: replaces the value in place when the key is
present, otherwise appends the new key (JavaScript insertion order). -/
def objSet (k : JStr) (v : β) : List (JStr × β) → List (JStr × β)
  | [] => [(k, v)]
  | (k', v') :: t => if k' = k then (k, v) :: t else (k', v') :: objSet k v t

/-- The statement `delete obj[k]`. -/
def objDel (k : JStr) : List (JStr × β) → List (JStr × β)
  | [] => []
  | (k', v') :: t => if k' = k then objDel k t else (k', v') :: objDel k t

/-- JavaScript string comparison `a < b`: lexicographic on code units. -/
def strLtb : JStr → JStr → Bool
  | _, [] => false
  | [], _ :: _ => true
  | a :: as, b :: bs =>
    if a.toNat < b.toNat then true
    else if b.toNat < a.toNat then false
    else strLtb as bs

/-- JavaScript string comparison `a <= b`: lexicographic on code units. -/
def strLeb : JStr → JStr → Bool
  | [], _ => true
  | _ :: _, [] => false
  | a :: as, b :: bs =>
    if a.toNat < b.toNat then true
    else if b.toNat < a.toNat then false
    else strLeb as bs

/-- Does the string `p` occur as a prefix of `s`? -/
def strPrefixB : JStr → JStr → Bool
  | [], _ => true
  | _ :: _, [] => false
  | a :: as, b :: bs => if a = b then strPrefixB as bs else false

/-- Big-endian decimal digits of a natural number.  The `fuel` argument only
bounds the recursion depth and is always supplied large enough. -/
def decDigits : Nat → Nat → List Nat
  | 0, _ => []
  | fuel + 1, n => if n < 10 then [n] else decDigits fuel (n / 10) ++ [n % 10]

/-- The JavaScript rendering `String(n)` of a natural number (decimal,
no exponent notation in the ranges the handlers produce). -/
def jsNatRepr (n : Nat) : JStr := (decDigits (n + 1) n).map Nat.digitChar

/-- Source `paddedIndex` (webdav_fs.js lines 321-326):
`('000000000000000' + String(index)).slice(-15)`, that is, prepend fifteen
zeros and keep the last fifteen characters. -/
def paddedIndex (index : Nat) : JStr :=
  let padding := js "000000000000000"
  let s := padding ++ jsNatRepr index
  s.drop (s.length - padding.length)

/-- The chunk object name `${paddedIndex(offset)}-${paddedIndex(end)}` built by
`onWriteFileRequested` (webdav_fs.js line 235). -/
def chunkName (offset finish : Nat) : JStr :=
  paddedIndex offset ++ js "-" ++ paddedIndex finish

/-- Source `createFileSystemID(url, username)` (webdav_fs.js lines 298-300). -/
def createFileSystemID (url username : JStr) : JStr :=
  js "webdavfs://" ++ username ++ js "/" ++ url

/-- Untyped JavaScript values, as far as the handlers pass them around. -/
inductive JsVal
  | str (s : JStr)
  | num (n : Nat)
  | bool (b : Bool)
  | buf (bytes : List Nat)
  | date (s : JStr)
  | undef
  deriving DecidableEq

/-- One call issued on the `WebDAV.Client` adapter.  The two arguments of
`putFileContents` are recorded as the JavaScript values actually passed, since
one call site passes a buffer in the path position. -/
inductive ClientCall
  | stat (path : JStr)
  | getDirectoryContents (path : JStr)
  | getFileContents (path : JStr)
  | putFileContents (path : JsVal) (data : JsVal)
  | createDirectory (path : JStr)
  | deleteFile (path : JStr)
  | moveFile (src : JStr) (dst : JStr)
  | copyFile (src : JStr) (dst : JStr)
  deriving DecidableEq

/-- A WebDAV `stat` record as returned by the client library. -/
structure WebDAVStat where
  basename : JStr
  lastmod : JStr
  size : Nat
  type : JStr
  mime : JStr
  deriving DecidableEq

/-- A metadata record: a JavaScript object, field name to value. -/
abbrev Metadata := List (JStr × JsVal)

/-- Source `fromStat(stat)` (webdav_fs.js lines 302-311). -/
def fromStat (stat : WebDAVStat) : Metadata :=
  [ (js "isDirectory", .bool (stat.type == js "directory")),
    (js "name", .str stat.basename),
    (js "size", .num stat.size),
    (js "modificationTime", .date stat.lastmod),
    (js "mimeType", .str stat.mime) ]

/-- Source `canonicalizedMetadata(metadata, options)` (webdav_fs.js lines
313-319): copy the record, then delete every field whose option flag is not
truthy — i.e. keep exactly the fields with a truthy flag, in order. -/
def canonicalizedMetadata (metadata : Metadata) (options : JStr → Bool) : Metadata :=
  metadata.filter fun kv => options kv.1

/-- Modelled from the spec: the `MetadataCache` class is not among the source
files.  Spec §4.2 describes two sub-caches per mount: a directory-listing
cache (path → ordered child metadata) and a single-entry cache
(path → metadata). -/
structure MetadataCache where
  listings : List (JStr × List Metadata)
  entries : List (JStr × Metadata)
  deriving DecidableEq

/-- Modelled from the spec: `put(path, entries)` stores the full ordered child
list for `path` (spec §4.2). -/
def MetadataCache.put (c : MetadataCache) (path : JStr) (ms : List Metadata) :
    MetadataCache :=
  { c with listings := objSet path ms c.listings }

/-- Modelled from the spec: the single-entry cache is `populated by stat
calls` (spec §4.2). -/
def MetadataCache.putEntry (c : MetadataCache) (path : JStr) (m : Metadata) :
    MetadataCache :=
  { c with entries := objSet path m c.entries }

/-- Modelled from the spec: `remove(path)` evicts both the listing cache and
the single-entry cache for `path` (spec §4.2). -/
def MetadataCache.remove (c : MetadataCache) (path : JStr) : MetadataCache :=
  { listings := objDel path c.listings, entries := objDel path c.entries }

/-- Name field of a cached metadata record. -/
def metadataName (m : Metadata) : JStr :=
  match objGet (js "name") m with
  | some (.str s) => s
  | _ => []

/-- Modelled from the spec: a path `was returned as a child within some cached
listing` when a cached listing of some directory `d` contains a record whose
name joined to `d` gives the path (spec §4.2). -/
def childLookup (c : MetadataCache) (path : JStr) : Option Metadata :=
  c.listings.findSome? fun dl =>
    dl.2.find? fun m => dl.1 ++ js "/" ++ metadataName m == path

/-- The record returned by `MetadataCache.get`, with the field names under
which the source reads it (webdav_fs.js line 94). -/
structure CacheGetResult where
  directoryExists : Bool
  fileExists : Bool
  metadata : Option Metadata
  deriving DecidableEq

/-- Modelled from the spec: `get(path)` returns cached metadata and two
presence flags; the listing-presence flag is read as `directoryExists` and the
entry-presence flag as `fileExists` (spec §4.2, webdav_fs.js line 94). -/
def MetadataCache.get (c : MetadataCache) (path : JStr) : CacheGetResult :=
  { directoryExists := (childLookup c path).isSome
    fileExists := (objGet path c.entries).isSome
    metadata := (childLookup c path).orElse fun _ => objGet path c.entries }

/-- Does the cache hold a keyed entry for `path` in either sub-cache? -/
def MetadataCache.holds (c : MetadataCache) (path : JStr) : Bool :=
  (objGet path c.listings).isSome || (objGet path c.entries).isSome

/-- JavaScript exceptions the handlers can raise. -/
inductive JsError
  | referenceError
  | typeError
  | thrown
  deriving DecidableEq

/-- Source `onGetMetadataRequested` (webdav_fs.js lines 84-100): fail on
thumbnail requests; return cached metadata when the cache reports both
`directoryExists` and `fileExists`, otherwise stat over the network.  The
returned list records the adapter calls issued. -/
def onGetMetadataRequested (stat : JStr → WebDAVStat) (c : MetadataCache)
    (entryPath : JStr) (thumbnail : Bool) (options : JStr → Bool) :
    Except JsError (Metadata × List ClientCall) :=
  if thumbnail then .error .thrown
  else
    let cache := c.get entryPath
    if cache.directoryExists && cache.fileExists then
      .ok (canonicalizedMetadata (cache.metadata.getD []) options, [])
    else
      .ok (canonicalizedMetadata (fromStat (stat entryPath)) options, [.stat entryPath])

/-- Source `onDeleteEntryRequested` (webdav_fs.js lines 169-178). -/
def onDeleteEntryRequested (c : MetadataCache) (entryPath : JStr) :
    List ClientCall × MetadataCache :=
  ([.deleteFile entryPath], c.remove entryPath)

/-- Source `onCreateFileRequested` (webdav_fs.js lines 180-189). -/
def onCreateFileRequested (c : MetadataCache) (filePath : JStr) :
    List ClientCall × MetadataCache :=
  ([.putFileContents (.str filePath) (.buf [])], c.remove filePath)

/-- Source `onCopyEntryRequested` (webdav_fs.js lines 191-201). -/
def onCopyEntryRequested (c : MetadataCache) (sourcePath targetPath : JStr) :
    List ClientCall × MetadataCache :=
  ([.copyFile sourcePath targetPath], (c.remove sourcePath).remove targetPath)

/-- Source `onMoveEntryRequested` (webdav_fs.js lines 203-213). -/
def onMoveEntryRequested (c : MetadataCache) (sourcePath targetPath : JStr) :
    List ClientCall × MetadataCache :=
  ([.moveFile sourcePath targetPath], (c.remove sourcePath).remove targetPath)

/-- Source `onCreateDirectoryRequested` (webdav_fs.js lines 160-167): the log
template interpolates the variable `recursive`, which is not destructured from
`options` (line 161) nor otherwise in scope, so in strict mode the handler
throws a ReferenceError before reaching the `createDirectory` adapter call. -/
def onCreateDirectoryRequested (_c : MetadataCache) (_directoryPath : JStr) :
    Except JsError (List ClientCall × MetadataCache) :=
  .error .referenceError

/-- Source `onTruncateRequested` (webdav_fs.js lines 215-222): fetch the whole
file, slice it, then call `client.putFileContents(buffer.slice(0, length))` —
a single-argument call, so the sliced buffer is passed in the path position
and no contents argument is passed.  The metadata cache is not touched. -/
def onTruncateRequested (fileContents : JStr → List Nat) (c : MetadataCache)
    (filePath : JStr) (length : Nat) : List ClientCall × MetadataCache :=
  ([ .getFileContents filePath,
     .putFileContents (.buf ((fileContents filePath).take length)) .undef ], c)

/-- File open modes of the provider interface. -/
inductive FileMode
  | READ
  | WRITE
  deriving DecidableEq

/-- An entry of `#openedFilesMap` (webdav_fs.js lines 6 and 115). -/
structure OpenedFile where
  filePath : JStr
  mode : FileMode
  uuid : JStr
  deriving DecidableEq

/-- Source `onOpenFileRequested` (webdav_fs.js lines 102-116): line 103
destructures only `requestId`, `filePath` and `mode`, yet line 111 in the
WRITE branch reads `fileSystemId`, which is not in scope; in strict mode that
throws a ReferenceError before `createDirectory('/' + uuid)` runs, so every
write-mode open fails and registers nothing.  Non-WRITE opens register the
handle under the request id.  The freshly generated `uuidv1()` value is passed
in as `uuid`. -/
def onOpenFileRequested (files : List (JStr × OpenedFile)) (requestId filePath : JStr)
    (mode : FileMode) (uuid : JStr) :
    Except JsError (List ClientCall × List (JStr × OpenedFile)) :=
  match mode with
  | .WRITE => .error .referenceError
  | .READ => .ok ([], objSet requestId ⟨filePath, mode, uuid⟩ files)

/-- A persisted mount record (`{ name, url, username, password }`). -/
structure MountedCredential where
  name : JStr
  url : JStr
  username : JStr
  password : JStr
  deriving DecidableEq

/-- The instance state of the `WebDAVFS` class together with the host mount
surface and the persisted credential store it manipulates. -/
structure WebDAVFSState (Client : Type) where
  webDAVClientMap : List (JStr × Client)
  openedFilesMap : List (JStr × OpenedFile)
  metadataCacheMap : List (JStr × MetadataCache)
  mounted : List JStr
  mountedCredentials : List (JStr × MountedCredential)
  deriving DecidableEq

/-- Source `removeMountedCredential` (webdav_fs.js lines 286-291). -/
def removeMountedCredential (creds : List (JStr × MountedCredential))
    (fileSystemId : JStr) : List (JStr × MountedCredential) :=
  objDel fileSystemId creds

/-- Source `onUnmountRequested` (webdav_fs.js lines 57-68): deregisters the
file system, deletes the client and cache entries keyed by `fileSystemId`,
executes `delete this.#openedFilesMap[fileSystemId]` — indexing the open-file
table by file-system id although its entries are keyed by open-request id
(lines 6 and 115) — and removes the persisted credential. -/
def onUnmountRequested (s : WebDAVFSState Client) (fileSystemId : JStr) :
    WebDAVFSState Client :=
  { webDAVClientMap := objDel fileSystemId s.webDAVClientMap
    openedFilesMap := objDel fileSystemId s.openedFilesMap
    metadataCacheMap := objDel fileSystemId s.metadataCacheMap
    mounted := s.mounted.filter fun i => i != fileSystemId
    mountedCredentials := removeMountedCredential s.mountedCredentials fileSystemId }

/-- Source `resumeMounts` (webdav_fs.js lines 41-55): a sequential loop over
the persisted records; each iteration awaits connect/authenticate and then
registers the mount.  A thrown error propagates out of the loop, so the
iteration stops at the first failing record.  `fails` tells which records fail
to connect or authenticate; the result is the list of file-system ids
registered by this call, in order, paired with whether the loop completed. -/
def resumeMounts (fails : MountedCredential → Bool) :
    List MountedCredential → List JStr × Bool
  | [] => ([], true)
  | r :: rest =>
    if fails r then ([], false)
    else
      let x := resumeMounts fails rest
      (createFileSystemID r.url r.username :: x.1, x.2)

/-- The remote server's resources: path → byte contents. -/
structure RemoteServer where
  objects : List (JStr × List Nat)
  deriving DecidableEq

/-- Ordering of chunk objects by their (full) object path, as a string sort. -/
def chunkLe (x y : JStr × List Nat) : Prop := strLeb x.1 y.1 = true

instance : DecidableRel chunkLe := fun x y =>
  inferInstanceAs (Decidable (strLeb x.1 y.1 = true))

/-- Modelled from the spec: the effect of one adapter call on the remote
server.  Plain PUT/DELETE/COPY/MOVE act on whole resources; a MOVE whose
source is `container + '/.file'` is the Nextcloud chunked-upload finalization
(spec §4.4/§6): the server assembles all objects stored under the staging
container, in string-sorted name order, into the destination path, consuming
the container.  Collections (MKCOL) are left implicit; reads do not change
state. -/
def applyCall (s : RemoteServer) : ClientCall → RemoteServer
  | .putFileContents (.str path) (.buf data) => ⟨objSet path data s.objects⟩
  | .moveFile src dst =>
    if src.drop (src.length - 6) = js "/.file" then
      let container := src.take (src.length - 6)
      let chunks := s.objects.filter fun kv =>
        strPrefixB (container ++ js "/") kv.1 && kv.1 != src
      let sorted := List.insertionSort chunkLe chunks
      let assembled := (sorted.map Prod.snd).flatten
      let rest := s.objects.filter fun kv => !strPrefixB (container ++ js "/") kv.1
      ⟨objSet dst assembled rest⟩
    else
      match objGet src s.objects with
      | some v => ⟨objSet dst v (objDel src s.objects)⟩
      | none => s
  | .deleteFile path => ⟨objDel path s.objects⟩
  | .copyFile src dst =>
    match objGet src s.objects with
    | some v => ⟨objSet dst v s.objects⟩
    | none => s
  | _ => s

/-- Run a list of adapter calls against the remote server in order. -/
def runCalls (s : RemoteServer) (calls : List ClientCall) : RemoteServer :=
  calls.foldl applyCall s

/-- Source `onWriteFileRequested` (webdav_fs.js lines 224-239): look up the
handle, then PUT the data as a chunk object
`/${uuid}/${paddedIndex(offset)}-${paddedIndex(end)}` with
`end = offset + data.byteLength`.  A missing handle would make the
destructuring on line 226 throw. -/
def onWriteFileRequested (files : List (JStr × OpenedFile)) (openRequestId : JStr)
    (offset : Nat) (data : List Nat) : Except JsError (List ClientCall) :=
  match objGet openRequestId files with
  | none => .error .typeError
  | some f =>
    let finish := offset + data.length
    let uploadPath := js "/" ++ f.uuid ++ js "/" ++ chunkName offset finish
    .ok [.putFileContents (.str uploadPath) (.buf data)]

/-- Source `onCloseFileRequested` (webdav_fs.js lines 118-132): for a WRITE
handle, MOVE `/${uuid}/.file` to the target path (triggering server-side chunk
assembly), then drop the handle. -/
def onCloseFileRequested (files : List (JStr × OpenedFile)) (openRequestId : JStr) :
    Except JsError (List ClientCall × List (JStr × OpenedFile)) :=
  match objGet openRequestId files with
  | none => .error .typeError
  | some f =>
    let calls :=
      if f.mode = .WRITE then
        [ClientCall.moveFile (js "/" ++ f.uuid ++ js "/.file") f.filePath]
      else []
    .ok (calls, objDel openRequestId files)

/-- Issue a sequence of `writeFile` requests against one handle, collecting
the adapter calls of all of them in order. -/
def runWrites (files : List (JStr × OpenedFile)) (openRequestId : JStr) :
    List (Nat × List Nat) → Except JsError (List ClientCall)
  | [] => .ok []
  | w :: ws => do
    let t ← onWriteFileRequested files openRequestId w.1 w.2
    let rest ← runWrites files openRequestId ws
    pure (t ++ rest)

/-- Numeric value of a big-endian list of decimal digits. -/
def digitsVal (ds : List Nat) : Nat := ds.foldl (fun a d => 10 * a + d) 0

/-- Strict lexicographic comparison of two big-endian digit lists. -/
def dLtb : List Nat → List Nat → Bool
  | _, [] => false
  | [], _ :: _ => true
  | a :: as, b :: bs =>
    if a < b then true
    else if b < a then false
    else dLtb as bs

/-- The digits of `paddedIndex`: the decimal digits of `n` left-padded with
zeros to width fifteen (meaningful for `n < 10 ^ 15`). -/
def padDigits15 (n : Nat) : List Nat :=
  List.replicate (15 - (decDigits (n + 1) n).length) 0 ++ decDigits (n + 1) n

/-- A concrete cached metadata record for the path `/a/b` (name `b`). -/
def mdCexB : Metadata := [(js "name", .str (js "b")), (js "size", .num 3)]

/-- A concrete cache state holding `/a/b` in both sub-caches: the listing of
`/a` contains a child named `b`, and the single-entry cache holds `/a/b`. -/
def cacheCex : MetadataCache :=
  ⟨[(js "/a", [mdCexB])], [(js "/a/b", mdCexB)]⟩

/-- A concrete stat function for counterexample states. -/
def statCex : JStr → WebDAVStat := fun _ => ⟨js "b", js "2024-01-01", 7, js "file", js "text/plain"⟩

/-- A concrete persisted record whose connect/authenticate step fails. -/
def credBad : MountedCredential := ⟨js "Bad", js "https://one.example/dav", js "bob", js "pw"⟩

/-- A concrete persisted record whose connect/authenticate step succeeds. -/
def credGood : MountedCredential := ⟨js "Good", js "https://two.example/dav", js "carol", js "pw"⟩

/-- Failure oracle for the resume counterexample: exactly `credBad` fails. -/
def failsCex : MountedCredential → Bool := fun r => r.username == js "bob"

/-- A concrete mount identity. -/
def fsIdCex : JStr := createFileSystemID (js "https://one.example/dav") (js "alice")

/-- A concrete open READ handle, registered under open-request id `5`. -/
def handleCex : OpenedFile := ⟨js "/f.txt", .READ, js "5e3a0000"⟩

/-- A concrete `WebDAVFS` state: one mount, with one open handle keyed by the
open-request id `5`. -/
def stateCex : WebDAVFSState Unit :=
  { webDAVClientMap := [(fsIdCex, ())]
    openedFilesMap := [(js "5", handleCex)]
    metadataCacheMap := [(fsIdCex, ⟨[], []⟩)]
    mounted := [fsIdCex]
    mountedCredentials := [(fsIdCex, ⟨js "Docs", js "https://one.example/dav", js "alice", js "pw"⟩)] }

/-- Strict ordering of chunk objects by their object path. -/
def chunkLt (x y : JStr × List Nat) : Prop := strLtb x.1 y.1 = true

/-- The adapter call one `writeFile` request issues for handle `f`
(webdav_fs.js lines 234-238). -/
def writeCall (f : OpenedFile) (w : Nat × List Nat) : ClientCall :=
  .putFileContents (.str (js "/" ++ f.uuid ++ js "/" ++ chunkName w.1 (w.1 + w.2.length)))
    (.buf w.2)

/-- The staging objects a list of `writeFile` requests creates under the
session container of `uuid`. -/
def chunksOf (uuid : JStr) (ws : List (Nat × List Nat)) : List (JStr × List Nat) :=
  ws.map fun w => (js "/" ++ uuid ++ js "/" ++ chunkName w.1 (w.1 + w.2.length), w.2)

/-- Concrete 100-byte chunk for the round-trip witness. -/
def bytesW1 : List Nat := List.replicate 100 1

/-- Concrete 150-byte chunk for the round-trip witness. -/
def bytesW2 : List Nat := List.replicate 150 2

/-- Concrete 50-byte chunk for the round-trip witness. -/
def bytesW3 : List Nat := List.replicate 50 3

/-- The three chunk writes of the round-trip witness, deliberately issued out
of offset order. -/
def writesW : List (Nat × List Nat) := [(250, bytesW3), (0, bytesW1), (100, bytesW2)]

/-- Open-file table of the round-trip witness: one WRITE handle under request
id `1` with session id `u` targeting `/doc.txt`. -/
def filesW : List (JStr × OpenedFile) := [(js "1", ⟨js "/doc.txt", .WRITE, js "u"⟩)]

/-- The adapter calls the witness writes issue, in issue order. -/
def callsW1 : List ClientCall :=
  [ .putFileContents (.str (js "/" ++ js "u" ++ js "/" ++ chunkName 250 300)) (.buf bytesW3),
    .putFileContents (.str (js "/" ++ js "u" ++ js "/" ++ chunkName 0 100)) (.buf bytesW1),
    .putFileContents (.str (js "/" ++ js "u" ++ js "/" ++ chunkName 100 250)) (.buf bytesW2) ]

/-- The adapter call the witness close issues. -/
def callsW2 : List ClientCall :=
  [ .moveFile (js "/" ++ js "u" ++ js "/.file") (js "/doc.txt") ]

/-! ### Association-list (JavaScript object) lemmas -/

theorem objGet_objDel_self (k : JStr) (l : List (JStr × β)) :
    objGet k (objDel k l) = none := by
  induction l with
  | nil => rfl
  | cons kv t ih =>
    by_cases h : kv.1 = k <;> simp [objDel, h, objGet, ih]

theorem objGet_objDel_none (k k' : JStr) (l : List (JStr × β))
    (h : objGet k l = none) : objGet k (objDel k' l) = none := by
  induction l with
  | nil => rfl
  | cons kv t ih =>
    by_cases hk : kv.1 = k
    · simp [objGet, hk] at h
    · simp only [objGet, if_neg hk] at h
      by_cases hk' : kv.1 = k' <;> simp [objDel, hk', objGet, hk, ih h]

theorem objGet_objSet_self (k : JStr) (v : β) (l : List (JStr × β)) :
    objGet k (objSet k v l) = some v := by
  induction l with
  | nil => simp [objSet, objGet]
  | cons kv t ih =>
    by_cases h : kv.1 = k <;> simp [objSet, h, objGet, ih]

theorem objSet_of_objGet_none (k : JStr) (v : β) (l : List (JStr × β))
    (h : objGet k l = none) : objSet k v l = l ++ [(k, v)] := by
  induction l with
  | nil => rfl
  | cons kv t ih =>
    by_cases hk : kv.1 = k
    · simp [objGet, hk] at h
    · simp only [objGet, if_neg hk] at h
      simp [objSet, hk, ih h]

theorem objGet_append (k : JStr) (l₁ l₂ : List (JStr × β)) :
    objGet k (l₁ ++ l₂) = (objGet k l₁).orElse fun _ => objGet k l₂ := by
  induction l₁ with
  | nil => simp [objGet, Option.orElse]
  | cons kv t ih =>
    by_cases h : kv.1 = k <;> simp [objGet, h, ih, Option.orElse]

theorem objGet_mem {k : JStr} {v : β} {l : List (JStr × β)}
    (h : objGet k l = some v) : (k, v) ∈ l := by
  induction l with
  | nil => simp [objGet] at h
  | cons kv t ih =>
    obtain ⟨k1, v1⟩ := kv
    by_cases hk : k1 = k
    · subst hk
      simp only [objGet, if_pos, Option.some.injEq] at h
      subst h
      exact List.mem_cons_self _ _
    · simp only [objGet, if_neg hk] at h
      exact List.mem_cons_of_mem _ (ih h)

/-! ### String comparison lemmas -/

theorem char_toNat_inj {a b : Char} (h : a.toNat = b.toNat) : a = b :=
  Char.eq_of_val_eq (UInt32.ext h)

theorem strLtb_irrefl (a : JStr) : strLtb a a = false := by
  induction a with
  | nil => rfl
  | cons c t ih => simp [strLtb, ih]

theorem strLtb_cons_same (c : Char) (a b : JStr) :
    strLtb (c :: a) (c :: b) = strLtb a b := by
  simp [strLtb]

theorem strLtb_append_same (p a b : JStr) :
    strLtb (p ++ a) (p ++ b) = strLtb a b := by
  induction p with
  | nil => rfl
  | cons c t ih => simpa [strLtb_cons_same] using ih

theorem strLeb_append_same (p a b : JStr) :
    strLeb (p ++ a) (p ++ b) = strLeb a b := by
  induction p with
  | nil => rfl
  | cons c t ih => simpa [strLeb] using ih

theorem strPrefixB_append_self (p s : JStr) : strPrefixB p (p ++ s) = true := by
  induction p with
  | nil => rfl
  | cons c t ih => simpa [strPrefixB] using ih

theorem strLtb_asymm {a b : JStr} (h : strLtb a b = true) : strLtb b a = false := by
  induction a generalizing b with
  | nil =>
    cases b with
    | nil => simp [strLtb] at h
    | cons d u => rfl
  | cons c t ih =>
    cases b with
    | nil => simp [strLtb] at h
    | cons d u =>
      by_cases h1 : c.toNat < d.toNat
      · have h2 : ¬ d.toNat < c.toNat := by omega
        simp [strLtb, h2, h1]
      · by_cases h2 : d.toNat < c.toNat
        · simp [strLtb, h1, h2] at h
        · have ht : strLtb t u = true := by simpa [strLtb, h1, h2] using h
          simp [strLtb, h1, h2, ih ht]

theorem strLeb_iff (a b : JStr) :
    strLeb a b = true ↔ strLtb a b = true ∨ a = b := by
  induction a generalizing b with
  | nil =>
    cases b with
    | nil => simp [strLeb, strLtb]
    | cons d u => simp [strLeb, strLtb]
  | cons c t ih =>
    cases b with
    | nil => simp [strLeb, strLtb]
    | cons d u =>
      by_cases h1 : c.toNat < d.toNat
      · have : c ≠ d := fun hcd => by subst hcd; omega
        simp [strLeb, strLtb, h1, this]
      · by_cases h2 : d.toNat < c.toNat
        · have : c ≠ d := fun hcd => by subst hcd; omega
          simp [strLeb, strLtb, h1, h2, this]
        · have hcd : c = d := char_toNat_inj (by omega)
          subst hcd
          simp [strLeb, strLtb, h1, h2, ih]

theorem strLeb_total (a b : JStr) : strLeb a b = true ∨ strLeb b a = true := by
  induction a generalizing b with
  | nil => left; rfl
  | cons c t ih =>
    cases b with
    | nil => right; rfl
    | cons d u =>
      by_cases h1 : c.toNat < d.toNat
      · left; simp [strLeb, h1]
      · by_cases h2 : d.toNat < c.toNat
        · right; simp [strLeb, h1, h2]
        · cases ih u with
          | inl h => left; simpa [strLeb, h1, h2] using h
          | inr h => right; simpa [strLeb, h1, h2] using h

theorem strLtb_trans {a b c : JStr} (hab : strLtb a b = true)
    (hbc : strLtb b c = true) : strLtb a c = true := by
  induction a generalizing b c with
  | nil =>
    cases c with
    | nil =>
      cases b with
      | nil => exact hab
      | cons d u => simp [strLtb] at hbc
    | cons e w => rfl
  | cons x t ih =>
    cases b with
    | nil => simp [strLtb] at hab
    | cons y u =>
      cases c with
      | nil => simp [strLtb] at hbc
      | cons z w =>
        by_cases h1 : x.toNat < y.toNat <;> by_cases h2 : y.toNat < z.toNat
        · have : x.toNat < z.toNat := by omega
          simp [strLtb, this]
        · by_cases h3 : z.toNat < y.toNat
          · simp [strLtb, h2, h3] at hbc
          · have hyz : y = z := char_toNat_inj (by omega)
            subst hyz
            simp [strLtb, h1]
        · by_cases h4 : y.toNat < x.toNat
          · simp [strLtb, h1, h4] at hab
          · have hxy : x = y := char_toNat_inj (by omega)
            subst hxy
            simp [strLtb, h2]
        · by_cases h4 : y.toNat < x.toNat
          · simp [strLtb, h1, h4] at hab
          · by_cases h5 : z.toNat < y.toNat
            · simp [strLtb, h2, h5] at hbc
            · have hxy : x = y := char_toNat_inj (by omega)
              have hyz : y = z := char_toNat_inj (by omega)
              subst hxy; subst hyz
              have hab' : strLtb t u = true := by simpa [strLtb, h1] using hab
              have hbc' : strLtb u w = true := by simpa [strLtb, h2] using hbc
              simp [strLtb, h1, ih hab' hbc']

theorem strLeb_trans {a b c : JStr} (hab : strLeb a b = true)
    (hbc : strLeb b c = true) : strLeb a c = true := by
  rcases (strLeb_iff a b).mp hab with h₁ | rfl
  · rcases (strLeb_iff b c).mp hbc with h₂ | rfl
    · exact (strLeb_iff a c).mpr (Or.inl (strLtb_trans h₁ h₂))
    · exact hab
  · exact hbc

theorem strLtb_append_eqlen (x y a b : JStr) (hlen : x.length = y.length) :
    strLtb (x ++ a) (y ++ b) = true ↔
      strLtb x y = true ∨ (x = y ∧ strLtb a b = true) := by
  induction x generalizing y with
  | nil =>
    cases y with
    | nil => simp [strLtb]
    | cons d u => simp at hlen
  | cons c t ih =>
    cases y with
    | nil => simp at hlen
    | cons d u =>
      have hlen' : t.length = u.length := by simpa using hlen
      by_cases h1 : c.toNat < d.toNat
      · simp [strLtb, h1]
      · by_cases h2 : d.toNat < c.toNat
        · have : c ≠ d := fun hcd => by subst hcd; omega
          simp [strLtb, h1, h2, this]
        · have hcd : c = d := char_toNat_inj (by omega)
          subst hcd
          simp only [List.cons_append, strLtb_cons_same, ih u hlen', List.cons.injEq,
            true_and]

/-! ### Decimal digit lemmas -/

theorem digitsVal_foldl (ds : List Nat) (a : Nat) :
    ds.foldl (fun x d => 10 * x + d) a = a * 10 ^ ds.length + digitsVal ds := by
  induction ds generalizing a with
  | nil => simp [digitsVal]
  | cons d t ih =>
    have h1 := ih (10 * a + d)
    have h2 := ih d
    simp only [List.foldl_cons, List.length_cons, digitsVal] at *
    rw [h1]
    have : List.foldl (fun x d => 10 * x + d) (10 * 0 + d) t =
        List.foldl (fun x d => 10 * x + d) d t := by norm_num
    rw [this, h2]
    ring

theorem digitsVal_cons (d : Nat) (t : List Nat) :
    digitsVal (d :: t) = d * 10 ^ t.length + digitsVal t := by
  show List.foldl _ (10 * 0 + d) t = _
  rw [Nat.mul_zero, Nat.zero_add]
  exact digitsVal_foldl t d

theorem digitsVal_append (ds es : List Nat) :
    digitsVal (ds ++ es) = digitsVal ds * 10 ^ es.length + digitsVal es := by
  show List.foldl _ 0 (ds ++ es) = _
  rw [List.foldl_append]
  exact digitsVal_foldl es (digitsVal ds)

theorem digitsVal_lt (ds : List Nat) (h : ∀ d ∈ ds, d < 10) :
    digitsVal ds < 10 ^ ds.length := by
  induction ds with
  | nil => simp [digitsVal]
  | cons d t ih =>
    rw [digitsVal_cons]
    have hd : d < 10 := h d (by simp)
    have ht : digitsVal t < 10 ^ t.length := ih fun x hx => h x (by simp [hx])
    calc d * 10 ^ t.length + digitsVal t
        < d * 10 ^ t.length + 10 ^ t.length := by omega
      _ = (d + 1) * 10 ^ t.length := by ring
      _ ≤ 10 * 10 ^ t.length := Nat.mul_le_mul_right _ (by omega)
      _ = 10 ^ (d :: t).length := by rw [List.length_cons]; ring

theorem digitsVal_replicate_zero (k : Nat) : digitsVal (List.replicate k 0) = 0 := by
  induction k with
  | zero => rfl
  | succ k ih => rw [List.replicate_succ, digitsVal_cons, ih]; simp

theorem decDigits_lt_ten (f : Nat) : ∀ n, ∀ d ∈ decDigits f n, d < 10 := by
  induction f with
  | zero => intro n d hd; simp [decDigits] at hd
  | succ f ih =>
    intro n d hd
    by_cases h : n < 10
    · simp [decDigits, h] at hd; omega
    · simp only [decDigits, if_neg h, List.mem_append, List.mem_singleton] at hd
      rcases hd with hd | hd
      · exact ih _ d hd
      · subst hd; exact Nat.mod_lt _ (by omega)

theorem decDigits_len_le (k : Nat) : ∀ f n, 0 < k → 0 < f → n < 10 ^ k → n < 10 ^ f →
    (decDigits f n).length ≤ k := by
  induction k with
  | zero => intro f n hk; omega
  | succ k ih =>
    intro f n _ hf hnk hnf
    cases f with
    | zero => omega
    | succ f =>
      by_cases h : n < 10
      · simp [decDigits, h]
      · have hk0 : 0 < k := by
          by_contra hk0
          have hk : k = 0 := by omega
          subst hk
          rw [pow_one] at hnk
          omega
        have hf0 : 0 < f := by
          by_contra hf0
          have hf' : f = 0 := by omega
          subst hf'
          rw [pow_one] at hnf
          omega
        have hpk : (10 : Nat) ^ (k + 1) = 10 ^ k * 10 := pow_succ 10 k
        have hpf : (10 : Nat) ^ (f + 1) = 10 ^ f * 10 := pow_succ 10 f
        have h1 : n / 10 < 10 ^ k := by omega
        have h2 : n / 10 < 10 ^ f := by omega
        have := ih f (n / 10) hk0 hf0 h1 h2
        simp only [decDigits, if_neg h, List.length_append, List.length_singleton]
        omega

theorem decDigits_val (f : Nat) : ∀ n, 0 < f → n < 10 ^ f →
    digitsVal (decDigits f n) = n := by
  induction f with
  | zero => intro n hf; omega
  | succ f ih =>
    intro n _ hnf
    by_cases h : n < 10
    · simp [decDigits, h, digitsVal_cons, digitsVal]
    · have hf0 : 0 < f := by
        by_contra hf0
        have hf' : f = 0 := by omega
        subst hf'
        rw [pow_one] at hnf
        omega
      have hpf : (10 : Nat) ^ (f + 1) = 10 ^ f * 10 := pow_succ 10 f
      have h2 : n / 10 < 10 ^ f := by omega
      simp only [decDigits, if_neg h]
      rw [digitsVal_append, ih (n / 10) hf0 h2]
      have : digitsVal [n % 10] = n % 10 := by simp [digitsVal_cons, digitsVal]
      rw [this, List.length_singleton, pow_one]
      omega

/-! ### Bridging characters and digits -/

theorem digitChar_toNat (d : Nat) (h : d < 10) : (Nat.digitChar d).toNat = 48 + d := by
  interval_cases d <;> rfl

theorem strLtb_map_digitChar (ds : List Nat) : ∀ es, (∀ d ∈ ds, d < 10) →
    (∀ d ∈ es, d < 10) →
    strLtb (ds.map Nat.digitChar) (es.map Nat.digitChar) = dLtb ds es := by
  induction ds with
  | nil => intro es _ _; cases es <;> rfl
  | cons d t ih =>
    intro es hd he
    cases es with
    | nil => rfl
    | cons e u =>
      have hd0 : d < 10 := hd d (by simp)
      have he0 : e < 10 := he e (by simp)
      have hdt : ∀ x ∈ t, x < 10 := fun x hx => hd x (by simp [hx])
      have heu : ∀ x ∈ u, x < 10 := fun x hx => he x (by simp [hx])
      have c1 : ((Nat.digitChar d).toNat < (Nat.digitChar e).toNat) = (d < e) := by
        rw [digitChar_toNat d hd0, digitChar_toNat e he0]
        simp
      have c2 : ((Nat.digitChar e).toNat < (Nat.digitChar d).toNat) = (e < d) := by
        rw [digitChar_toNat d hd0, digitChar_toNat e he0]
        simp
      simp only [List.map_cons, strLtb, dLtb, c1, c2, ih u hdt heu]

theorem dLtb_iff_val (ds : List Nat) : ∀ es, ds.length = es.length →
    (∀ d ∈ ds, d < 10) → (∀ d ∈ es, d < 10) →
    (dLtb ds es = true ↔ digitsVal ds < digitsVal es) := by
  induction ds with
  | nil =>
    intro es hlen _ _
    cases es with
    | nil => simp [dLtb]
    | cons e u => simp at hlen
  | cons d t ih =>
    intro es hlen hd he
    cases es with
    | nil => simp at hlen
    | cons e u =>
      have hlen' : t.length = u.length := by simpa using hlen
      have hdt : ∀ x ∈ t, x < 10 := fun x hx => hd x (by simp [hx])
      have heu : ∀ x ∈ u, x < 10 := fun x hx => he x (by simp [hx])
      have hvt : digitsVal t < 10 ^ t.length := digitsVal_lt t hdt
      have hvu : digitsVal u < 10 ^ u.length := digitsVal_lt u heu
      rw [hlen'] at hvt
      rw [digitsVal_cons, digitsVal_cons, hlen']
      by_cases h1 : d < e
      · have hval : d * 10 ^ u.length + digitsVal t < e * 10 ^ u.length + digitsVal u := by
          calc d * 10 ^ u.length + digitsVal t
              < d * 10 ^ u.length + 10 ^ u.length := by omega
            _ = (d + 1) * 10 ^ u.length := by ring
            _ ≤ e * 10 ^ u.length := Nat.mul_le_mul_right _ (by omega)
            _ ≤ e * 10 ^ u.length + digitsVal u := Nat.le_add_right _ _
        simp only [dLtb, if_pos h1]
        exact iff_of_true trivial hval
      · by_cases h2 : e < d
        · have hval : e * 10 ^ u.length + digitsVal u < d * 10 ^ u.length + digitsVal t + 1 := by
            calc e * 10 ^ u.length + digitsVal u
                < e * 10 ^ u.length + 10 ^ u.length := by omega
              _ = (e + 1) * 10 ^ u.length := by ring
              _ ≤ d * 10 ^ u.length := Nat.mul_le_mul_right _ (by omega)
              _ ≤ d * 10 ^ u.length + digitsVal t + 1 := by omega
          simp only [dLtb, if_neg h1, if_pos h2]
          exact iff_of_false (by simp) (by omega)
        · have hde : d = e := by omega
          subst hde
          simp only [dLtb, if_neg h1, ih u hlen' hdt heu]
          omega

/-! ### `paddedIndex` is zero-padding, and string order is numeric order -/

theorem paddedIndex_eq (n : Nat) (hn : n < 10 ^ 15) :
    paddedIndex n = (padDigits15 n).map Nat.digitChar := by
  have hfuel : n < 10 ^ (n + 1) :=
    lt_of_lt_of_le (Nat.lt_pow_self (by norm_num) n)
      (Nat.pow_le_pow_right (by norm_num) (by omega))
  have hlen : (decDigits (n + 1) n).length ≤ 15 :=
    decDigits_len_le 15 (n + 1) n (by norm_num) (by omega) hn hfuel
  have hmaplen : (jsNatRepr n).length = (decDigits (n + 1) n).length :=
    List.length_map _ _
  have hJs : js "000000000000000" = List.replicate 15 '0' := by decide
  show (js "000000000000000" ++ jsNatRepr n).drop
      ((js "000000000000000" ++ jsNatRepr n).length - (js "000000000000000").length) = _
  rw [hJs]
  have hdroplen :
      (List.replicate 15 '0' ++ jsNatRepr n).length - (List.replicate 15 '0').length =
        (jsNatRepr n).length := by
    simp
  rw [hdroplen]
  have hsplit : List.replicate 15 '0' =
      List.replicate (jsNatRepr n).length '0' ++
        List.replicate (15 - (jsNatRepr n).length) '0' := by
    rw [← List.replicate_add]
    congr 1
    omega
  rw [hsplit, List.append_assoc, List.drop_left' (List.length_replicate _ _)]
  unfold padDigits15
  rw [List.map_append, List.map_replicate]
  rw [hmaplen]
  rfl

theorem padDigits15_length (n : Nat) (hn : n < 10 ^ 15) :
    (padDigits15 n).length = 15 := by
  have hfuel : n < 10 ^ (n + 1) :=
    lt_of_lt_of_le (Nat.lt_pow_self (by norm_num) n)
      (Nat.pow_le_pow_right (by norm_num) (by omega))
  have hlen : (decDigits (n + 1) n).length ≤ 15 :=
    decDigits_len_le 15 (n + 1) n (by norm_num) (by omega) hn hfuel
  unfold padDigits15
  rw [List.length_append, List.length_replicate]
  omega

theorem padDigits15_lt_ten (n : Nat) : ∀ d ∈ padDigits15 n, d < 10 := by
  intro d hd
  unfold padDigits15 at hd
  rcases List.mem_append.mp hd with h | h
  · have := List.eq_of_mem_replicate h
    omega
  · exact decDigits_lt_ten (n + 1) n d h

theorem padDigits15_val (n : Nat) (hn : n < 10 ^ 15) :
    digitsVal (padDigits15 n) = n := by
  have hfuel : n < 10 ^ (n + 1) :=
    lt_of_lt_of_le (Nat.lt_pow_self (by norm_num) n)
      (Nat.pow_le_pow_right (by norm_num) (by omega))
  unfold padDigits15
  rw [digitsVal_append, digitsVal_replicate_zero, decDigits_val (n + 1) n (by omega) hfuel]
  simp

theorem paddedIndex_length (n : Nat) (hn : n < 10 ^ 15) :
    (paddedIndex n).length = 15 := by
  rw [paddedIndex_eq n hn, List.length_map, padDigits15_length n hn]

theorem paddedIndex_ltb_iff (m n : Nat) (hm : m < 10 ^ 15) (hn : n < 10 ^ 15) :
    strLtb (paddedIndex m) (paddedIndex n) = true ↔ m < n := by
  rw [paddedIndex_eq m hm, paddedIndex_eq n hn,
    strLtb_map_digitChar _ _ (padDigits15_lt_ten m) (padDigits15_lt_ten n),
    dLtb_iff_val _ _ (by rw [padDigits15_length m hm, padDigits15_length n hn])
      (padDigits15_lt_ten m) (padDigits15_lt_ten n),
    padDigits15_val m hm, padDigits15_val n hn]

theorem paddedIndex_inj (m n : Nat) (hm : m < 10 ^ 15) (hn : n < 10 ^ 15) :
    paddedIndex m = paddedIndex n ↔ m = n := by
  constructor
  · intro h
    by_contra hne
    rcases Nat.lt_or_ge m n with hlt | hge
    · have hx := (paddedIndex_ltb_iff m n hm hn).mpr hlt
      rw [h, strLtb_irrefl] at hx
      exact Bool.false_ne_true hx
    · have hlt : n < m := by omega
      have hx := (paddedIndex_ltb_iff n m hn hm).mpr hlt
      rw [h, strLtb_irrefl] at hx
      exact Bool.false_ne_true hx
  · intro h; rw [h]

theorem strLtb_append_eqlen_iff (x y a b : JStr) (hlen : x.length = y.length) :
    strLtb (x ++ a) (y ++ b) = true ↔
      strLtb x y = true ∨ (x = y ∧ strLtb a b = true) :=
  strLtb_append_eqlen x y a b hlen

theorem chunkName_ltb_iff (o1 e1 o2 e2 : Nat) (ho1 : o1 < 10 ^ 15) (he1 : e1 < 10 ^ 15)
    (ho2 : o2 < 10 ^ 15) (he2 : e2 < 10 ^ 15) :
    strLtb (chunkName o1 e1) (chunkName o2 e2) = true ↔
      (o1 < o2 ∨ (o1 = o2 ∧ e1 < e2)) := by
  have hlen1 : (paddedIndex o1 ++ js "-").length = (paddedIndex o2 ++ js "-").length := by
    rw [List.length_append, List.length_append, paddedIndex_length o1 ho1,
      paddedIndex_length o2 ho2]
  have hlen2 : (paddedIndex o1).length = (paddedIndex o2).length := by
    rw [paddedIndex_length o1 ho1, paddedIndex_length o2 ho2]
  unfold chunkName
  rw [strLtb_append_eqlen _ _ _ _ hlen1, strLtb_append_eqlen _ _ _ _ hlen2]
  have hdash : strLtb (js "-") (js "-") = false := by decide
  have heq : (paddedIndex o1 ++ js "-" = paddedIndex o2 ++ js "-") ↔
      paddedIndex o1 = paddedIndex o2 :=
    ⟨fun h => List.append_cancel_right h, fun h => by rw [h]⟩
  rw [hdash, heq, paddedIndex_ltb_iff o1 o2 ho1 ho2, paddedIndex_inj o1 o2 ho1 ho2,
    paddedIndex_ltb_iff e1 e2 he1 he2]
  simp

/-! ### Claim theorems -/

/-- C10: there are two distinct `(url, username)` configurations — here one
where the username contains a `/` — whose computed mount identity strings are
equal, so `createFileSystemID` is not injective. -/
theorem c10_fileSystemID_collision :
    ∃ p q : JStr × JStr, p ≠ q ∧
      createFileSystemID p.1 p.2 = createFileSystemID q.1 q.2 :=
  ⟨(js "c", js "a/b"), (js "b/c", js "a"), by decide, by decide⟩

/-- C9: the metadata returned to the caller contains exactly the fields of the
record whose option flag is truthy, and no others. -/
theorem c9_metadata_projection (md : Metadata) (options : JStr → Bool)
    (k : JStr) (v : JsVal) :
    (k, v) ∈ canonicalizedMetadata md options ↔ (k, v) ∈ md ∧ options k = true := by
  simp [canonicalizedMetadata, List.mem_filter]

/-- C4 (code bug): `onOpenFileRequested` reads the undeclared variable
`fileSystemId` in its WRITE branch, so every open with mode WRITE throws a
ReferenceError: the staging container is never created and no handle is ever
registered for a write-mode open. -/
theorem c4_open_write_always_fails (files : List (JStr × OpenedFile))
    (requestId filePath uuid : JStr) :
    onOpenFileRequested files requestId filePath .WRITE uuid = .error .referenceError ∧
      ∀ result, onOpenFileRequested files requestId filePath .WRITE uuid ≠ .ok result := by
  refine ⟨rfl, fun result h => ?_⟩
  simp [onOpenFileRequested] at h

/-- C6 (code bug): on a truncate request the handler fetches the whole file
and then calls `putFileContents` with the sliced buffer as its only argument —
the buffer sits in the path position and no write to the target path `/a.txt`
is ever issued. -/
theorem c6_truncate_misdirected_put :
    onTruncateRequested (fun _ => [1, 2, 3, 4, 5, 6, 7, 8, 9, 10]) ⟨[], []⟩
        (js "/a.txt") 5 =
      ([ .getFileContents (js "/a.txt"),
         .putFileContents (.buf [1, 2, 3, 4, 5]) .undef ], ⟨[], []⟩) ∧
      ∀ d, ClientCall.putFileContents (.str (js "/a.txt")) d ∉
        (onTruncateRequested (fun _ => [1, 2, 3, 4, 5, 6, 7, 8, 9, 10]) ⟨[], []⟩
          (js "/a.txt") 5).1 := by
  constructor
  · rfl
  · intro d h
    simp [onTruncateRequested] at h

/-- C7 counterexample: with two persisted records of which the first fails to
connect, `resumeMounts` registers nothing at all — in particular the second,
healthy record is not resumed, contradicting the claimed per-record
isolation. -/
theorem c7_resume_abort_cex :
    (resumeMounts failsCex [credBad, credGood]).1 = [] ∧
      createFileSystemID credGood.url credGood.username ∉
        (resumeMounts failsCex [credBad, credGood]).1 := by
  constructor
  · rfl
  · intro h
    rw [show (resumeMounts failsCex [credBad, credGood]).1 = [] from rfl] at h
    exact (List.not_mem_nil _) h

/-- C7 amended: `resumeMounts` resumes records strictly in order up to the
first failing record; that record and every later one are not resumed, and the
boolean result records whether the loop ran to completion. -/
theorem c7_resume_prefix (fails : MountedCredential → Bool)
    (records : List MountedCredential) :
    resumeMounts fails records =
      ((records.takeWhile fun r => !fails r).map fun r =>
          createFileSystemID r.url r.username,
        records.all fun r => !fails r) := by
  induction records with
  | nil => rfl
  | cons r rest ih =>
    by_cases h : fails r <;>
      simp [resumeMounts, h, ih, List.takeWhile_cons, List.all_cons]

/-- C8 (code bug): unmounting deregisters the mount, discards its client,
cache and persisted credential, but `delete this.#openedFilesMap[fileSystemId]`
indexes the handle table with the file-system id while handles are keyed by
open-request id, so the open handle registered under request id `5` survives
the unmount. -/
theorem c8_unmount_keeps_open_handles :
    (onUnmountRequested stateCex fsIdCex).openedFilesMap = [(js "5", handleCex)] ∧
    (onUnmountRequested stateCex fsIdCex).webDAVClientMap = [] ∧
    (onUnmountRequested stateCex fsIdCex).metadataCacheMap = [] ∧
    (onUnmountRequested stateCex fsIdCex).mounted = [] ∧
    (onUnmountRequested stateCex fsIdCex).mountedCredentials = [] := by
  refine ⟨?_, ?_, ?_, ?_, ?_⟩ <;> decide

/-- C3 counterexample: the fifteen-character window of `paddedIndex` truncates
offsets of sixteen or more digits, so the chunk names for the byte ranges
`[0, 100)` and `[10^15, 10^15 + 100)` coincide even though the numeric pairs
compare strictly — string order does not reflect numeric order there. -/
theorem c3_chunk_name_order_cex :
    chunkName 0 100 = chunkName (10 ^ 15) (10 ^ 15 + 100) ∧
      ¬ (strLtb (chunkName 0 100) (chunkName (10 ^ 15) (10 ^ 15 + 100)) = true ↔
          ((0 : Nat) < 10 ^ 15 ∨ ((0 : Nat) = 10 ^ 15 ∧ 100 < 10 ^ 15 + 100))) := by
  constructor
  · decide
  · decide

/-- C3 amended: for chunk bounds below `10 ^ 15` (fifteen decimal digits, the
width of the zero padding), the chunk names compare in string order exactly as
the numeric pairs `(offset, end)` compare lexicographically. -/
theorem c3_chunk_name_order (o1 e1 o2 e2 : Nat) (ho1 : o1 < 10 ^ 15)
    (he1 : e1 < 10 ^ 15) (ho2 : o2 < 10 ^ 15) (he2 : e2 < 10 ^ 15) :
    strLtb (chunkName o1 e1) (chunkName o2 e2) = true ↔
      (o1 < o2 ∨ (o1 = o2 ∧ e1 < e2)) :=
  chunkName_ltb_iff o1 e1 o2 e2 ho1 he1 ho2 he2

/-- Witness for the amended C3 theorem at the spec's example chunks `[0, 100)`
and `[100, 250)`. -/
theorem c3_chunk_name_order_wit :
    (0 : Nat) < 10 ^ 15 ∧ (250 : Nat) < 10 ^ 15 ∧
      strLtb (chunkName 0 100) (chunkName 100 250) = true :=
  ⟨by norm_num, by norm_num,
    (c3_chunk_name_order 0 100 100 250 (by norm_num) (by norm_num) (by norm_num)
      (by norm_num)).mpr (Or.inl (by norm_num))⟩

theorem metadataCache_holds_remove (c : MetadataCache) (p : JStr) :
    (c.remove p).holds p = false := by
  simp [MetadataCache.holds, MetadataCache.remove, objGet_objDel_self]

theorem metadataCache_holds_remove_remove (c : MetadataCache) (p q : JStr) :
    ((c.remove p).remove q).holds p = false := by
  have h1 : objGet p (objDel q (objDel p c.listings)) = none :=
    objGet_objDel_none _ _ _ (objGet_objDel_self _ _)
  have h2 : objGet p (objDel q (objDel p c.entries)) = none :=
    objGet_objDel_none _ _ _ (objGet_objDel_self _ _)
  simp [MetadataCache.holds, MetadataCache.remove, h1, h2]

theorem onGetMetadataRequested_of_entry_none (stat : JStr → WebDAVStat)
    (c : MetadataCache) (p : JStr) (opts : JStr → Bool)
    (h : objGet p c.entries = none) :
    onGetMetadataRequested stat c p false opts =
      .ok (canonicalizedMetadata (fromStat (stat p)) opts, [.stat p]) := by
  simp [onGetMetadataRequested, MetadataCache.get, h]

/-- C2 counterexample: truncating a path for which the cache holds entries in
both sub-caches leaves the cache untouched — the keyed entry survives and an
immediately following `getMetadata` for the path returns the previously
cached metadata with no network call; moreover `createDirectory` never even
completes (it always throws a ReferenceError on the undeclared variable
`recursive`). -/
theorem c2_mutation_eviction_cex :
    (onTruncateRequested (fun _ => [1, 2, 3, 4, 5, 6]) cacheCex
        (js "/a/b") 2).2.holds (js "/a/b") = true ∧
    onGetMetadataRequested statCex
        (onTruncateRequested (fun _ => [1, 2, 3, 4, 5, 6]) cacheCex (js "/a/b") 2).2
        (js "/a/b") false (fun _ => true) = .ok (mdCexB, []) ∧
    onCreateDirectoryRequested cacheCex (js "/d") = .error .referenceError := by
  exact ⟨by decide, by rfl, by rfl⟩

/-- C2 amended: `deleteEntry`, `createFile`, `copyEntry` and `moveEntry`
evict the affected path(s) — both source and target for copy/move — so the
cache holds no keyed entry for them and an immediately following `getMetadata`
for the affected path goes to the network; `truncate` leaves the cache
unchanged (and `createDirectory` always fails before its adapter call, while
`writeFile` only writes staging objects and never touches the cache). -/
theorem c2_mutation_eviction (fc : JStr → List Nat) (stat : JStr → WebDAVStat)
    (c : MetadataCache) (p s t : JStr) (n : Nat) (opts : JStr → Bool) :
    (onDeleteEntryRequested c p).2.holds p = false ∧
    (onCreateFileRequested c p).2.holds p = false ∧
    (onCopyEntryRequested c s t).2.holds s = false ∧
    (onCopyEntryRequested c s t).2.holds t = false ∧
    (onMoveEntryRequested c s t).2.holds s = false ∧
    (onMoveEntryRequested c s t).2.holds t = false ∧
    onGetMetadataRequested stat (onDeleteEntryRequested c p).2 p false opts =
      .ok (canonicalizedMetadata (fromStat (stat p)) opts, [.stat p]) ∧
    onGetMetadataRequested stat (onCreateFileRequested c p).2 p false opts =
      .ok (canonicalizedMetadata (fromStat (stat p)) opts, [.stat p]) ∧
    onGetMetadataRequested stat (onCopyEntryRequested c s t).2 t false opts =
      .ok (canonicalizedMetadata (fromStat (stat t)) opts, [.stat t]) ∧
    onGetMetadataRequested stat (onMoveEntryRequested c s t).2 t false opts =
      .ok (canonicalizedMetadata (fromStat (stat t)) opts, [.stat t]) ∧
    (onTruncateRequested fc c p n).2 = c := by
  refine ⟨metadataCache_holds_remove c p, metadataCache_holds_remove c p,
    metadataCache_holds_remove_remove c s t, metadataCache_holds_remove _ t,
    metadataCache_holds_remove_remove c s t, metadataCache_holds_remove _ t,
    ?_, ?_, ?_, ?_, rfl⟩ <;>
  · exact onGetMetadataRequested_of_entry_none _ _ _ _ (objGet_objDel_self _ _)

/-- C5: for a non-thumbnail `getMetadata` request, if the cache reports both
listing presence (the path occurs as a child of a cached listing) and entry
presence (the single-entry cache holds the path), the cached metadata is
returned with no adapter call; otherwise the path is stat-ed over the network
and its translation returned. -/
theorem c5_getMetadata_cache_branch (stat : JStr → WebDAVStat) (c : MetadataCache)
    (p : JStr) (opts : JStr → Bool) :
    onGetMetadataRequested stat c p false opts =
      if (childLookup c p).isSome ∧ (objGet p c.entries).isSome then
        .ok (canonicalizedMetadata ((childLookup c p).getD []) opts, [])
      else
        .ok (canonicalizedMetadata (fromStat (stat p)) opts, [.stat p]) := by
  cases hc : childLookup c p <;> cases he : objGet p c.entries <;>
    simp [onGetMetadataRequested, MetadataCache.get, hc, he, Option.orElse]

/-! ### Chunked-upload round trip -/

theorem paddedIndex_length_all (n : Nat) : (paddedIndex n).length = 15 := by
  show ((js "000000000000000" ++ jsNatRepr n).drop
    ((js "000000000000000" ++ jsNatRepr n).length - (js "000000000000000").length)).length = 15
  rw [List.length_drop]
  have h15 : (js "000000000000000").length = 15 := by decide
  rw [List.length_append, h15]
  omega

theorem chunkName_ne_file (o e : Nat) : chunkName o e ≠ js ".file" := by
  intro h
  have hlen := congrArg List.length h
  rw [chunkName, List.length_append, List.length_append, paddedIndex_length_all,
    paddedIndex_length_all] at hlen
  have hd : (js "-").length = 1 := by decide
  have hf : (js ".file").length = 5 := by decide
  omega

theorem runWrites_ok (files : List (JStr × OpenedFile)) (rid : JStr) (f : OpenedFile)
    (hfile : objGet rid files = some f) :
    ∀ ws : List (Nat × List Nat), runWrites files rid ws = .ok (ws.map (writeCall f)) := by
  intro ws
  induction ws with
  | nil => rfl
  | cons w t ih =>
    simp [runWrites, onWriteFileRequested, hfile, ih, writeCall, Bind.bind, Except.bind,
      Pure.pure, Except.pure]

theorem onCloseFileRequested_write (files : List (JStr × OpenedFile)) (rid : JStr)
    (f : OpenedFile) (hfile : objGet rid files = some f) (hmode : f.mode = .WRITE) :
    onCloseFileRequested files rid =
      .ok ([.moveFile (js "/" ++ f.uuid ++ js "/.file") f.filePath], objDel rid files) := by
  simp [onCloseFileRequested, hfile, hmode]

theorem runCalls_puts :
    ∀ (ps : List (JStr × List Nat)) (s : RemoteServer),
      (∀ p ∈ ps, objGet p.1 s.objects = none) → (ps.map Prod.fst).Nodup →
      (runCalls s (ps.map fun p =>
          ClientCall.putFileContents (.str p.1) (.buf p.2))).objects =
        s.objects ++ ps := by
  intro ps
  induction ps with
  | nil => intro s _ _; simp [runCalls]
  | cons q t ih =>
    intro s hfresh hnd
    have hq : objGet q.1 s.objects = none := hfresh q (by simp)
    have hstep : applyCall s (ClientCall.putFileContents (.str q.1) (.buf q.2)) =
        ⟨s.objects ++ [q]⟩ := by
      simp [applyCall, objSet_of_objGet_none _ _ _ hq]
    have hmem : q.1 ∉ t.map Prod.fst := by
      have := hnd
      simp only [List.map_cons, List.nodup_cons] at this
      exact this.1
    have hfresh' : ∀ p ∈ t, objGet p.1 (s.objects ++ [q]) = none := by
      intro p hp
      rw [objGet_append, hfresh p (by simp [hp])]
      have hne : q.1 ≠ p.1 := by
        intro hcontra
        exact hmem (hcontra ▸ List.mem_map_of_mem Prod.fst hp)
      simp [Option.orElse, objGet, hne]
    have hnd' : (t.map Prod.fst).Nodup := by
      have := hnd
      simp only [List.map_cons, List.nodup_cons] at this
      exact this.2
    calc (runCalls s ((q :: t).map fun p =>
            ClientCall.putFileContents (.str p.1) (.buf p.2))).objects
        = (runCalls ⟨s.objects ++ [q]⟩ (t.map fun p =>
            ClientCall.putFileContents (.str p.1) (.buf p.2))).objects := by
          simp [runCalls, hstep]
      _ = (s.objects ++ [q]) ++ t := ih ⟨s.objects ++ [q]⟩ hfresh' hnd'
      _ = s.objects ++ q :: t := by simp

theorem insertionSort_eq_of_perm_strict (l l' : List (JStr × List Nat))
    (hp : l.Perm l') (hl' : l'.Pairwise chunkLt)
    (hnd : (l.map Prod.fst).Nodup) :
    List.insertionSort chunkLe l = l' := by
  have instTot : IsTotal (JStr × List Nat) chunkLe := ⟨fun x y => strLeb_total x.1 y.1⟩
  have instTrans : IsTrans (JStr × List Nat) chunkLe :=
    ⟨fun _ _ _ hab hbc => strLeb_trans hab hbc⟩
  have hsorted : List.Sorted chunkLe (List.insertionSort chunkLe l) :=
    @List.sorted_insertionSort _ chunkLe _ instTot instTrans l
  have hperm : (List.insertionSort chunkLe l).Perm l := List.perm_insertionSort chunkLe l
  have hndsorted : ((List.insertionSort chunkLe l).map Prod.fst).Nodup :=
    ((hperm.map Prod.fst).nodup_iff).mpr hnd
  have hkeyne : (List.insertionSort chunkLe l).Pairwise fun a b => a.1 ≠ b.1 := by
    rw [List.Nodup, List.pairwise_map] at hndsorted
    exact hndsorted
  have hstrict : (List.insertionSort chunkLe l).Pairwise chunkLt := by
    refine (hsorted.and hkeyne).imp ?_
    rintro a b ⟨hle, hne⟩
    rcases (strLeb_iff a.1 b.1).mp hle with h | h
    · exact h
    · exact absurd h hne
  have instAnti : IsAntisymm (JStr × List Nat) chunkLt :=
    ⟨fun a b hab hba => absurd hba (by simp [chunkLt, strLtb_asymm hab])⟩
  exact @List.eq_of_perm_of_sorted _ chunkLt instAnti _ _ (hperm.trans hp) hstrict hl'

theorem applyCall_move_assemble (uuid dst : JStr) (s0 : RemoteServer)
    (chunks : List (JStr × List Nat))
    (hs0 : ∀ kv ∈ s0.objects, strPrefixB (js "/" ++ uuid ++ js "/") kv.1 = false)
    (hch : ∀ kv ∈ chunks, ∃ nm, kv.1 = js "/" ++ uuid ++ js "/" ++ nm ∧ nm ≠ js ".file") :
    applyCall ⟨s0.objects ++ chunks⟩ (.moveFile (js "/" ++ uuid ++ js "/.file") dst) =
      ⟨objSet dst ((List.insertionSort chunkLe chunks).map Prod.snd).flatten
        s0.objects⟩ := by
  have hlen6 : (js "/.file").length = 6 := by decide
  have hsublen : (js "/" ++ uuid ++ js "/.file").length - 6 = (js "/" ++ uuid).length := by
    rw [List.length_append, hlen6]
    omega
  have hdrop : (js "/" ++ uuid ++ js "/.file").drop
      ((js "/" ++ uuid ++ js "/.file").length - 6) = js "/.file" := by
    rw [hsublen]
    exact List.drop_left _ _
  have htake : (js "/" ++ uuid ++ js "/.file").take
      ((js "/" ++ uuid ++ js "/.file").length - 6) = js "/" ++ uuid := by
    rw [hsublen]
    exact List.take_left _ _
  have hsplitfile : js "/.file" = js "/" ++ js ".file" := by decide
  have hsrcalt : js "/" ++ uuid ++ js "/.file" = js "/" ++ uuid ++ js "/" ++ js ".file" := by
    rw [hsplitfile, ← List.append_assoc]
  have hchpred : ∀ kv ∈ chunks,
      (strPrefixB (js "/" ++ uuid ++ js "/") kv.1 &&
        kv.1 != js "/" ++ uuid ++ js "/.file") = true := by
    intro kv hkv
    obtain ⟨nm, hnm, hne⟩ := hch kv hkv
    rw [hnm, strPrefixB_append_self, Bool.true_and, bne_iff_ne]
    intro hcontra
    rw [hsrcalt] at hcontra
    exact hne (List.append_cancel_left hcontra)
  have hfilter1 : (s0.objects ++ chunks).filter (fun kv =>
      strPrefixB (js "/" ++ uuid ++ js "/") kv.1 &&
        kv.1 != js "/" ++ uuid ++ js "/.file") = chunks := by
    rw [List.filter_append]
    have h1 : s0.objects.filter (fun kv =>
        strPrefixB (js "/" ++ uuid ++ js "/") kv.1 &&
          kv.1 != js "/" ++ uuid ++ js "/.file") = [] := by
      rw [List.filter_eq_nil_iff]
      intro kv hkv
      rw [hs0 kv hkv]
      simp
    have h2 : chunks.filter (fun kv =>
        strPrefixB (js "/" ++ uuid ++ js "/") kv.1 &&
          kv.1 != js "/" ++ uuid ++ js "/.file") = chunks :=
      List.filter_eq_self.mpr hchpred
    rw [h1, h2, List.nil_append]
  have hfilter2 : (s0.objects ++ chunks).filter (fun kv =>
      !strPrefixB (js "/" ++ uuid ++ js "/") kv.1) = s0.objects := by
    rw [List.filter_append]
    have h1 : s0.objects.filter (fun kv =>
        !strPrefixB (js "/" ++ uuid ++ js "/") kv.1) = s0.objects := by
      refine List.filter_eq_self.mpr ?_
      intro kv hkv
      rw [hs0 kv hkv]
      rfl
    have h2 : chunks.filter (fun kv =>
        !strPrefixB (js "/" ++ uuid ++ js "/") kv.1) = [] := by
      rw [List.filter_eq_nil_iff]
      intro kv hkv
      obtain ⟨nm, hnm, _⟩ := hch kv hkv
      rw [hnm, strPrefixB_append_self]
      simp
    rw [h1, h2, List.append_nil]
  simp only [applyCall, hdrop, htake, if_pos]
  rw [hfilter1, hfilter2]

/-- C1: for an open write handle, issuing the chunk writes `[0,100)`,
`[100,250)`, `[250,300)` in any order and then closing the handle leaves the
target path holding exactly the concatenation of the three chunks in offset
order (under a fresh staging container on the remote server). -/
theorem c1_chunk_write_roundtrip
    (files : List (JStr × OpenedFile)) (rid filePath uuid : JStr)
    (b1 b2 b3 : List Nat)
    (hfile : objGet rid files = some ⟨filePath, .WRITE, uuid⟩)
    (h1 : b1.length = 100) (h2 : b2.length = 150) (h3 : b3.length = 50)
    (ws : List (Nat × List Nat)) (hws : ws.Perm [(0, b1), (100, b2), (250, b3)])
    (s : RemoteServer)
    (hs : ∀ kv ∈ s.objects, strPrefixB (js "/" ++ uuid ++ js "/") kv.1 = false)
    (tr₁ tr₂ : List ClientCall) (files' : List (JStr × OpenedFile))
    (htr₁ : runWrites files rid ws = .ok tr₁)
    (htr₂ : onCloseFileRequested files rid = .ok (tr₂, files')) :
    objGet filePath (runCalls (runCalls s tr₁) tr₂).objects = some (b1 ++ b2 ++ b3) := by
  have htr₁' : tr₁ = ws.map (writeCall ⟨filePath, .WRITE, uuid⟩) := by
    have h := runWrites_ok files rid _ hfile ws
    rw [htr₁] at h
    injection h
  have hclose := onCloseFileRequested_write files rid _ hfile rfl
  rw [htr₂] at hclose
  have hpair : (tr₂, files') =
      ([ClientCall.moveFile (js "/" ++ uuid ++ js "/.file") filePath],
        objDel rid files) := by
    injection hclose
  have htr₂' : tr₂ = [ClientCall.moveFile (js "/" ++ uuid ++ js "/.file") filePath] :=
    congrArg Prod.fst hpair
  have hmapeq : ws.map (writeCall ⟨filePath, .WRITE, uuid⟩) =
      (chunksOf uuid ws).map fun p =>
        ClientCall.putFileContents (.str p.1) (.buf p.2) := by
    simp only [chunksOf, List.map_map]
    rfl
  have hfreshChunks : ∀ p ∈ chunksOf uuid ws, objGet p.1 s.objects = none := by
    intro p hp
    simp only [chunksOf, List.mem_map] at hp
    obtain ⟨w, hw, rfl⟩ := hp
    by_contra hcon
    obtain ⟨v, hv⟩ := Option.ne_none_iff_exists'.mp hcon
    have hmem := objGet_mem hv
    have hfalse := hs _ hmem
    rw [strPrefixB_append_self] at hfalse
    simp at hfalse
  have hkeysperm : ((chunksOf uuid ws).map Prod.fst).Perm
      [js "/" ++ uuid ++ js "/" ++ chunkName 0 100,
       js "/" ++ uuid ++ js "/" ++ chunkName 100 250,
       js "/" ++ uuid ++ js "/" ++ chunkName 250 300] := by
    have h := hws.map fun w : Nat × List Nat =>
      js "/" ++ uuid ++ js "/" ++ chunkName w.1 (w.1 + w.2.length)
    simpa [chunksOf, List.map_map, h1, h2, h3] using h
  have hcc : ∀ n m : JStr,
      js "/" ++ uuid ++ js "/" ++ n = js "/" ++ uuid ++ js "/" ++ m → n = m :=
    fun n m h => List.append_cancel_left h
  have hne12 : js "/" ++ uuid ++ js "/" ++ chunkName 0 100 ≠
      js "/" ++ uuid ++ js "/" ++ chunkName 100 250 := by
    intro h
    have h' := hcc _ _ h
    revert h'
    decide
  have hne13 : js "/" ++ uuid ++ js "/" ++ chunkName 0 100 ≠
      js "/" ++ uuid ++ js "/" ++ chunkName 250 300 := by
    intro h
    have h' := hcc _ _ h
    revert h'
    decide
  have hne23 : js "/" ++ uuid ++ js "/" ++ chunkName 100 250 ≠
      js "/" ++ uuid ++ js "/" ++ chunkName 250 300 := by
    intro h
    have h' := hcc _ _ h
    revert h'
    decide
  have hnodup : ((chunksOf uuid ws).map Prod.fst).Nodup := by
    rw [List.Perm.nodup_iff hkeysperm]
    exact List.Nodup.cons (by simp; decide)
      (List.Nodup.cons (by simp; decide) (List.nodup_singleton _))
  have hstepA : (runCalls s tr₁).objects = s.objects ++ chunksOf uuid ws := by
    rw [htr₁', hmapeq]
    exact runCalls_puts (chunksOf uuid ws) s hfreshChunks hnodup
  have hsrv : runCalls s tr₁ = ⟨s.objects ++ chunksOf uuid ws⟩ := by
    rw [← hstepA]
  have hch : ∀ kv ∈ chunksOf uuid ws,
      ∃ nm, kv.1 = js "/" ++ uuid ++ js "/" ++ nm ∧ nm ≠ js ".file" := by
    intro kv hkv
    simp only [chunksOf, List.mem_map] at hkv
    obtain ⟨w, hw, rfl⟩ := hkv
    exact ⟨_, rfl, chunkName_ne_file _ _⟩
  have hassemble := applyCall_move_assemble uuid filePath s (chunksOf uuid ws) hs hch
  have hcanonperm : (chunksOf uuid ws).Perm
      [(js "/" ++ uuid ++ js "/" ++ chunkName 0 100, b1),
       (js "/" ++ uuid ++ js "/" ++ chunkName 100 250, b2),
       (js "/" ++ uuid ++ js "/" ++ chunkName 250 300, b3)] := by
    have h := hws.map fun w : Nat × List Nat =>
      (js "/" ++ uuid ++ js "/" ++ chunkName w.1 (w.1 + w.2.length), w.2)
    simpa [chunksOf, h1, h2, h3] using h
  have hlt12 : chunkLt (js "/" ++ uuid ++ js "/" ++ chunkName 0 100, b1)
      (js "/" ++ uuid ++ js "/" ++ chunkName 100 250, b2) := by
    show strLtb _ _ = true
    rw [strLtb_append_same]
    decide
  have hlt13 : chunkLt (js "/" ++ uuid ++ js "/" ++ chunkName 0 100, b1)
      (js "/" ++ uuid ++ js "/" ++ chunkName 250 300, b3) := by
    show strLtb _ _ = true
    rw [strLtb_append_same]
    decide
  have hlt23 : chunkLt (js "/" ++ uuid ++ js "/" ++ chunkName 100 250, b2)
      (js "/" ++ uuid ++ js "/" ++ chunkName 250 300, b3) := by
    show strLtb _ _ = true
    rw [strLtb_append_same]
    decide
  have hcanonsorted :
      ([(js "/" ++ uuid ++ js "/" ++ chunkName 0 100, b1),
        (js "/" ++ uuid ++ js "/" ++ chunkName 100 250, b2),
        (js "/" ++ uuid ++ js "/" ++ chunkName 250 300, b3)] :
          List (JStr × List Nat)).Pairwise chunkLt := by
    refine List.Pairwise.cons ?_ (List.Pairwise.cons ?_ (List.Pairwise.cons ?_ .nil))
    · intro a ha
      simp only [List.mem_cons, List.mem_singleton, List.not_mem_nil, or_false] at ha
      rcases ha with rfl | rfl
      · exact hlt12
      · exact hlt13
    · intro a ha
      simp only [List.mem_singleton] at ha
      subst ha
      exact hlt23
    · intro a ha
      exact absurd ha (List.not_mem_nil a)
  have hsorteq : List.insertionSort chunkLe (chunksOf uuid ws) =
      [(js "/" ++ uuid ++ js "/" ++ chunkName 0 100, b1),
       (js "/" ++ uuid ++ js "/" ++ chunkName 100 250, b2),
       (js "/" ++ uuid ++ js "/" ++ chunkName 250 300, b3)] :=
    insertionSort_eq_of_perm_strict _ _ hcanonperm hcanonsorted hnodup
  rw [htr₂', hsrv]
  have hrun1 : runCalls (⟨s.objects ++ chunksOf uuid ws⟩ : RemoteServer)
      [ClientCall.moveFile (js "/" ++ uuid ++ js "/.file") filePath] =
      applyCall ⟨s.objects ++ chunksOf uuid ws⟩
        (.moveFile (js "/" ++ uuid ++ js "/.file") filePath) := rfl
  rw [hrun1, hassemble, hsorteq]
  rw [objGet_objSet_self]
  simp

/-- Witness for the round-trip theorem: the three concrete chunks are written
in the order `[250,300)`, `[0,100)`, `[100,250)` against an empty server, and
after the close `/doc.txt` holds the bytes in offset order. -/
theorem c1_chunk_write_roundtrip_wit :
    objGet (js "/doc.txt") (runCalls (runCalls ⟨[]⟩ callsW1) callsW2).objects =
      some (bytesW1 ++ bytesW2 ++ bytesW3) :=
  c1_chunk_write_roundtrip filesW (js "1") (js "/doc.txt") (js "u")
    bytesW1 bytesW2 bytesW3 (by rfl) (by rfl) (by rfl) (by rfl)
    writesW (by decide) ⟨[]⟩ (by simp) callsW1 callsW2 [] (by rfl) (by rfl)
